import Mathlib

/-!
Verification of the CI-dashboard data pipeline of `github-shared-workflows`.

The JavaScript sources embedded here:
* `dashboard/app.js` (v2.0 client engine): `normalizeRun`, `fetchRepoData`,
  `refresh`, `renderSummary` (pass rate), `computeStreak`;
* `dashboard/repo-detail.js` (v5.0 static-data detail page): `parseKeyVal`,
  the CI-run filter in `loadDetail`, the job lookups in `renderDetail`;
* `generate-dashboard-data.sh`: the jq run filter of the static generator.

JavaScript strings are modelled as `List Char`, JS objects with optional
fields as structures of `Option`-valued fields, and the `||` operator via
explicit truthiness helpers (`""`, `0`, `null`/`undefined` are falsy).
`new Date().toISOString()` is passed in as an explicit `now` parameter.
-/

namespace CIDash

/-- A JavaScript string, modelled as its list of characters. -/
abbrev Str := List Char

/-- Convert a Lean string literal into the `Str` model. -/
def ofString (s : String) : Str := s.data

/-- Truthiness of an optional JS string: `undefined`/`null` and `""` are falsy. -/
def strTruthy : Option Str → Bool
  | none => false
  | some s => !s.isEmpty

/-- The JS `a || b` operator on two optional strings. -/
def jsOrS (a b : Option Str) : Option Str := if strTruthy a then a else b

/-- The JS `a || d` operator where `d` is a (string) literal, yielding a string. -/
def jsOrSDef (a : Option Str) (d : Str) : Str :=
  match a with
  | some s => if s.isEmpty then d else s
  | none => d

/-- The JS `a || d` operator on numbers (`0` is falsy). -/
def jsOrND (a : Option Int) (d : Int) : Int :=
  match a with
  | some n => if n = 0 then d else n
  | none => d

/-- A GitHub actor object.  `extra` models any further key-value fields the
raw API object carries beyond `login` and `avatar_url`. -/
structure Actor where
  login : Option Str := none
  avatar_url : Option Str := none
  extra : List (Str × Str) := []
deriving DecidableEq, Repr

/-- The JS `a || b` operator on optional objects (objects are always truthy). -/
def jsOrA (a b : Option Actor) : Option Actor :=
  match a with
  | some x => some x
  | none => b

/-- A raw (or normalized) workflow-run object: all fields a run object read by
`normalizeRun` may carry; absent JS fields are `none`. -/
structure RawRun where
  id : Option Int := none
  name : Option Str := none
  workflow_name : Option Str := none
  status : Option Str := none
  conclusion : Option Str := none
  html_url : Option Str := none
  created_at : Option Str := none
  updated_at : Option Str := none
  head_branch : Option Str := none
  head_sha : Option Str := none
  event : Option Str := none
  run_number : Option Int := none
  actor : Option Actor := none
  triggering_actor : Option Actor := none
  run_started_at : Option Str := none
deriving DecidableEq, Repr

def sUnknown : Str := ofString "unknown"
def sCompleted : Str := ofString "completed"
def sInProgress : Str := ofString "in_progress"
def sHash : Str := ofString "#"
def sMain : Str := ofString "main"
def sPush : Str := ofString "push"
def sSuccess : Str := ofString "success"
def sCopilot : Str := ofString "copilot"
def sDynamic : Str := ofString "dynamic"
def sRelease : Str := ofString "release"
def sNow : Str := ofString "2026-01-01T00:00:00Z"

/-- `normalizeRun` from `app.js` (lines 167-183).  `now` stands for the value
of `new Date().toISOString()` at the call.  The output JS object has no
`workflow_name`/`triggering_actor` keys, hence those fields are `none`. -/
def normalizeRun (now : Str) (run : RawRun) : RawRun :=
  { id := run.id
    name := some (jsOrSDef (jsOrS run.name run.workflow_name) (ofString "unknown"))
    workflow_name := none
    status := some (jsOrSDef run.status sCompleted)
    conclusion := some (jsOrSDef run.conclusion sUnknown)
    html_url := some (jsOrSDef run.html_url sHash)
    created_at := some (jsOrSDef (jsOrS run.created_at run.updated_at) now)
    updated_at := some (jsOrSDef (jsOrS run.updated_at run.created_at) now)
    head_branch := some (jsOrSDef run.head_branch sMain)
    head_sha := some (jsOrSDef run.head_sha [])
    event := some (jsOrSDef run.event sPush)
    run_number := some (jsOrND run.run_number 0)
    actor := jsOrA run.actor run.triggering_actor
    triggering_actor := none
    run_started_at := jsOrS run.run_started_at run.created_at }

/-! Case-insensitive substring tests, modelling JS `String.prototype.includes`
on lower-cased strings, jq `ascii_downcase | contains(..)`, and the regex
tests `/lint/i`, `/test/i`, `/security/i` of `renderDetail`. -/

/-- Lower-case every character (JS `toLowerCase` / jq `ascii_downcase`). -/
def lowerStr (s : Str) : Str := s.map Char.toLower

/-- `startsWithL pat s` holds when `pat` is a prefix of `s`. -/
def startsWithL : Str → Str → Bool
  | [], _ => true
  | _ :: _, [] => false
  | p :: ps, c :: cs => decide (p = c) && startsWithL ps cs

/-- `hasSubstr pat s`: `pat` occurs as a contiguous substring of `s`. -/
def hasSubstr (pat : Str) : Str → Bool
  | [] => pat.isEmpty
  | c :: cs => startsWithL pat (c :: cs) || hasSubstr pat cs

/-! The three run-ingestion paths and their filters. -/

/-- The jq `select` of `generate-dashboard-data.sh` (lines 40-43): keep a run
unless its name (defaulted to `""`) contains `"copilot"` after downcasing, or
its event equals `"dynamic"`. -/
def genKeepRun (r : RawRun) : Bool :=
  !hasSubstr sCopilot (lowerStr (r.name.getD [])) && !decide (r.event = some sDynamic)

/-- The run list written by the static generator, before field projection. -/
def genFilterRuns (rs : List RawRun) : List RawRun := rs.filter genKeepRun

/-- The CI-run filter of `loadDetail` in `repo-detail.js` (lines 56-62):
exclude names containing `"release"` or `"copilot"` (lower-cased) and runs
whose event is `"dynamic"`. -/
def detailKeepRun (r : RawRun) : Bool :=
  let name := lowerStr (jsOrSDef r.name [])
  !hasSubstr sRelease name && !hasSubstr sCopilot name && !decide (r.event = some sDynamic)

/-- The `ciRuns` list computed by `loadDetail`. -/
def detailFilterRuns (rs : List RawRun) : List RawRun := rs.filter detailKeepRun

/-- The live-API ingestion of `fetchRepoData` in `app.js` (line 135):
`data.workflow_runs.map(normalizeRun)` — no exclusion filter is applied. -/
def appIngestRuns (now : Str) (rs : List RawRun) : List RawRun :=
  rs.map (normalizeRun now)

/-! Data fetching with fallback (`fetchRepoData`) and the per-repository
assembly loop of `refresh` (`app.js` lines 66-122). -/

/-- Body of a successful GitHub API response, as read by `fetchRepoData`. -/
structure LivePayload where
  workflow_runs : Option (List RawRun) := none
  total_count : Option Int := none

/-- Body of a static per-repo JSON file, as read by `fetchRepoData`. -/
structure StaticPayload where
  runs : Option (List RawRun) := none

/-- A per-repo snapshot as stored into `repoData` by `refresh`. -/
structure RepoSnapshot where
  runs : List RawRun
  conclusion : Str
  totalCount : Int
  isStatic : Bool := false
  error : Bool := false
deriving DecidableEq, Repr

/-- The snapshot built from a live API payload (`app.js` lines 134-143),
provided the payload carries a `workflow_runs` array. -/
def liveSnapshot (now : Str) (d : LivePayload) : Option RepoSnapshot :=
  match d.workflow_runs with
  | some wrs =>
      let runs := wrs.map (normalizeRun now)
      some { runs := runs
             conclusion :=
               match runs.head? with
               | some r => r.conclusion.getD sUnknown
               | none => sUnknown
             totalCount := jsOrND d.total_count runs.length }
  | none => none

/-- The snapshot built from a static data file (`app.js` lines 149-159),
provided the file carries a `runs` array.  Its `conclusion` reads the RAW
first run's conclusion, defaulted by `||`. -/
def staticSnapshot (now : Str) (sd : StaticPayload) : Option RepoSnapshot :=
  match sd.runs with
  | some rs =>
      some { runs := rs.map (normalizeRun now)
             conclusion := jsOrSDef (rs.head?.bind RawRun.conclusion) sUnknown
             totalCount := rs.length
             isStatic := true }
  | none => none

/-- `fetchRepoData` (`app.js` lines 124-165).  Each argument is the outcome of
the corresponding `fetchJSON` call: `Except.error` for a thrown error
(network failure, non-2xx, malformed JSON).  Both `try` blocks swallow their
errors, so the function never throws; when all sources fail it returns
`null`, modelled as `none`. -/
def fetchRepoData (now : Str) (live : Except Unit LivePayload)
    (sta : Except Unit StaticPayload) : Option RepoSnapshot :=
  match (match live with
         | Except.ok d => liveSnapshot now d
         | Except.error _ => none) with
  | some snap => some snap
  | none =>
      match sta with
      | Except.ok sd => staticSnapshot now sd
      | Except.error _ => none

/-- The snapshot `refresh` stores for a repository whose fetch settled without
a usable value (`app.js` line 87). -/
def errorSnapshot : RepoSnapshot :=
  { runs := [], conclusion := sUnknown, totalCount := 0, isStatic := false, error := true }

/-- Per-repository branch of the `results.forEach` loop of `refresh`
(`app.js` lines 80-89): a fulfilled non-null value is stored as is, anything
else becomes the error snapshot.  (`fetchRepoData` never rejects, so every
settled result is fulfilled and carries an `Option RepoSnapshot`.) -/
def repoResult : Option RepoSnapshot → RepoSnapshot
  | some v => v
  | none => errorSnapshot

/-- The `repoData` object assembled by the `results.forEach` loop, keyed by
repo name in manifest order. -/
def refreshAssemble (pairs : List (Str × Option RepoSnapshot)) :
    List (Str × RepoSnapshot) :=
  pairs.foldl (fun acc p => acc ++ [(p.1, repoResult p.2)]) []

/-! Aggregation: pass rate and success streak (`renderSummary` and
`computeStreak`, `app.js` lines 194-229). -/

/-- The `successful` count of `renderSummary` (line 196). -/
def countSuccess (runs : List RawRun) : Nat :=
  (runs.filter fun r => decide (r.conclusion = some sSuccess)).length

/-- The `passRate` of `renderSummary` (line 198): `(successful/total*100)`
rendered by `toFixed(1)`, i.e. rounded to one decimal place, and `0` when
there are no runs.  The decimal string is modelled as an exact rational with
denominator 10. -/
def passRate (runs : List RawRun) : ℚ :=
  if runs.length > 0 then
    (((round (((countSuccess runs : ℚ) / (runs.length : ℚ) * 100) * 10) : ℤ) : ℚ)) / 10
  else 0

/-- Modelled from the spec: pass rate is successful runs over total runs,
expressed as a percentage rounded to one decimal place, and 0 when the total
is 0. -/
def specPassRate (runs : List RawRun) : ℚ :=
  if runs.length = 0 then 0
  else (((round ((100 * (runs.countP fun r => decide (r.conclusion = some sSuccess)) : ℚ)
      / (runs.length : ℚ) * 10) : ℤ) : ℚ)) / 10

/-- `computeStreak` (`app.js` lines 222-229): count consecutive successes from
the front of `allRuns`, stopping at the first non-success. -/
def computeStreak (runs : List RawRun) : Nat :=
  match runs with
  | [] => 0
  | r :: rest => if r.conclusion = some sSuccess then computeStreak rest + 1 else 0

/-- A run carrying only a conclusion, for the aggregate scenarios. -/
def runC (c : String) : RawRun := { conclusion := some (ofString c) }

/-- The `[success, success, failure, success]` scenario list. -/
def runsSSFS : List RawRun := [runC "success", runC "success", runC "failure", runC "success"]

/-! Job classification on the detail page (`renderDetail`,
`repo-detail.js` lines 97-104). -/

/-- A job object as read by `renderDetail` (only `name` and `conclusion`
matter for classification). -/
structure Job where
  name : Str
  conclusion : Option Str := none
deriving DecidableEq, Repr

/-- The regex test `/pat/i.test(s)` for a plain lowercase literal `pat`:
case-insensitive substring match. -/
def reTestI (pat : Str) (s : Str) : Bool := hasSubstr (lowerStr pat) (lowerStr s)

/-- `jobs.find(j => /lint/i.test(j.name))` of `renderDetail`. -/
def findLintJob (jobs : List Job) : Option Job :=
  jobs.find? fun j => reTestI (ofString "lint") j.name

/-- `jobs.find(j => /test/i.test(j.name))` of `renderDetail`. -/
def findTestJob (jobs : List Job) : Option Job :=
  jobs.find? fun j => reTestI (ofString "test") j.name

/-- `jobs.find(j => /security/i.test(j.name))` of `renderDetail`. -/
def findSecurityJob (jobs : List Job) : Option Job :=
  jobs.find? fun j => reTestI (ofString "security") j.name

/-- Modelled from the spec: the security category matches a name containing
"security", "scan", "sast", "trivy", or "vuln" (case-insensitive). -/
def secSpecMatch (s : Str) : Bool :=
  [ofString "security", ofString "scan", ofString "sast",
    ofString "trivy", ofString "vuln"].any fun p => hasSubstr p (lowerStr s)

/-- The four-job scenario of the spec. -/
def jobsScenario : List Job :=
  [{ name := ofString "Run Lint" }, { name := ofString "Unit Test Suite" },
   { name := ofString "Trivy Scan" }, { name := ofString "Deploy Release" }]

/-! The annotation parser `parseKeyVal` (`repo-detail.js` lines 84-91). -/

/-- Accumulator-based splitter: JS `String.prototype.split(sep)` for a
single-character separator.  Always returns one more part than there are
separators; `"".split(sep)` is `[""]`. -/
def splitAux (sep : Char) : Str → Str → List Str
  | [], acc => [acc.reverse]
  | c :: cs, acc =>
      if c = sep then acc.reverse :: splitAux sep cs []
      else splitAux sep cs (c :: acc)

/-- JS `s.split(sep)` for a one-character separator. -/
def jsSplit (sep : Char) (s : Str) : List Str := splitAux sep s []

/-- JS `String.prototype.trim`: strip whitespace from both ends. -/
def jsTrim (s : Str) : Str :=
  ((s.dropWhile Char.isWhitespace).reverse.dropWhile Char.isWhitespace).reverse

/-- JS object assignment `obj[k] = v` on a string-keyed object represented as
an insertion-ordered association list: an existing key keeps its position and
gets the new value, a new key is appended.  (Objects built by `parseKeyVal`
never hold duplicate keys, so replacing the first occurrence is exact.) -/
def setKey (m : List (Str × Str)) (k v : Str) : List (Str × Str) :=
  match m with
  | [] => [(k, v)]
  | p :: t => if p.1 = k then (k, v) :: t else p :: setKey t k v

/-- One iteration of the `forEach` in `parseKeyVal`: split the segment on
`'='`, destructure `[k, v]`, and assign `obj[k.trim()] = v.trim()` when `k`
is truthy and `v` is defined. -/
def pkvStep (obj : List (Str × Str)) (part : Str) : List (Str × Str) :=
  match jsSplit '=' part with
  | k :: v :: _ => if k.isEmpty then obj else setKey obj (jsTrim k) (jsTrim v)
  | _ => obj

/-- `parseKeyVal` (`repo-detail.js` lines 84-91) on a string input. -/
def parseKeyVal (s : Str) : List (Str × Str) :=
  (jsSplit '|' s).foldl pkvStep []

/-- `parseKeyVal` on a possibly-null input: `(str || '')`. -/
def parseKeyValOpt (s : Option Str) : List (Str × Str) :=
  parseKeyVal (jsOrSDef s [])

/-- `c` does not occur in `s`. -/
def noChar (c : Char) (s : Str) : Bool := s.all fun d => !decide (d = c)

/-- Render a pair list as a `key1=val1|key2=val2|...` string. -/
def renderPairs : List (Str × Str) → Str
  | [] => []
  | [p] => p.1 ++ '=' :: p.2
  | p :: rest => p.1 ++ '=' :: p.2 ++ '|' :: renderPairs rest

/-- A well-formed pair: nonempty key, and no separator characters inside key
or value (whitespace is allowed anywhere and gets trimmed). -/
def wfPair (p : Str × Str) : Bool :=
  !p.1.isEmpty && noChar '=' p.1 && noChar '|' p.1 && noChar '=' p.2 && noChar '|' p.2

/-- All pairs of the list are well-formed. -/
def wfPairs (ps : List (Str × Str)) : Bool := ps.all wfPair

/-- Option choice with priority on the left operand. -/
def orO {α : Type} (a b : Option α) : Option α :=
  match a with
  | some v => some v
  | none => b

/-- Lookup in a parsed object: value of the first (hence only) entry with the
given key. -/
def getVal (m : List (Str × Str)) (x : Str) : Option Str :=
  (m.find? fun p => decide (p.1 = x)).map Prod.snd

/-- Modelled from the spec: the value the mapping should associate to `x` —
the trimmed value of the LAST pair whose trimmed key is `x`. -/
def lastVal (ps : List (Str × Str)) (x : Str) : Option Str :=
  match ps with
  | [] => none
  | p :: t => orO (lastVal t x) (if x = jsTrim p.1 then some (jsTrim p.2) else none)

/-- Getting the value stored under key `x` in a parsed object (`obj[x]`). -/
def objGet (m : List (Str × Str)) (x : Str) : Option Str :=
  match m with
  | [] => none
  | p :: t => if p.1 = x then some p.2 else objGet t x

/-- The example run carrying a nonempty `created_at`. -/
def runWithCreated : RawRun := { created_at := some (ofString "2025-12-31T07:00:00Z") }

/-- Raw run for the C1 counterexample: in-progress, no conclusion, actor with
a field beyond `login`/`avatar_url`. -/
def rawInProgress : RawRun :=
  { status := some sInProgress
    actor := some { login := some (ofString "alice")
                    avatar_url := some (ofString "https://example.com/a.png")
                    extra := [(ofString "id", ofString "7")] } }

/-- A raw run whose name contains "copilot" and whose event is "dynamic". -/
def copilotRaw : RawRun :=
  { name := some (ofString "Copilot Workflow"), event := some sDynamic }

/-- Duplicate-key pair list for the last-occurrence-wins witness. -/
def dupPairs : List (Str × Str) :=
  [(ofString "a", ofString "1"), (ofString "a", ofString "2")]

/-! Helper lemmas on the JS `||` helpers. -/

theorem strTruthy_some_iff (s : Str) : strTruthy (some s) = true ↔ s ≠ [] := by
  simp [strTruthy]

theorem jsOrS_some_of_ne (s : Str) (b : Option Str) (h : s ≠ []) :
    jsOrS (some s) b = some s := by
  simp [jsOrS, strTruthy, h]

theorem jsOrSDef_some_of_ne (s d : Str) (h : s ≠ []) : jsOrSDef (some s) d = s := by
  simp [jsOrSDef, h]

theorem jsOrSDef_ne_nil (a : Option Str) (d : Str) (hd : d ≠ []) :
    jsOrSDef a d ≠ [] := by
  cases a with
  | none => simpa [jsOrSDef] using hd
  | some s =>
      by_cases hs : s.isEmpty <;> simp [jsOrSDef, hs, hd]
      intro hfalse
      simp [hfalse] at hs

theorem jsOr_chain (s : Str) (b : Option Str) (d : Str) (h : s ≠ []) :
    jsOrSDef (jsOrS (some s) b) d = s := by
  rw [jsOrS_some_of_ne s b h, jsOrSDef_some_of_ne s d h]

theorem jsOrSDef_some_nil (s : Str) : jsOrSDef (some s) [] = s := by
  by_cases hs : s.isEmpty <;> simp_all [jsOrSDef, List.isEmpty_iff]

theorem jsOrND_some_zero (k : Int) : jsOrND (some k) 0 = k := by
  by_cases hk : k = 0 <;> simp [jsOrND, hk]

theorem jsOrA_none_right (a : Option Actor) : jsOrA a none = a := by
  cases a <;> rfl

theorem jsOrS_of_truthy (a b : Option Str) (h : strTruthy a = true) : jsOrS a b = a := by
  simp [jsOrS, h]

theorem strTruthy_jsOrS (a b : Option Str) :
    strTruthy (jsOrS a b) = (strTruthy a || strTruthy b) := by
  by_cases h : strTruthy a = true <;> simp [jsOrS, h]

theorem jsOrS_none_left (b : Option Str) : jsOrS none b = b := rfl

/-! Helper lemmas on `noChar`, `jsSplit` and the parser step. -/

theorem noChar_cons (c d : Char) (s : Str) :
    noChar c (d :: s) = (!decide (d = c) && noChar c s) := by
  simp [noChar]

theorem noChar_append (c : Char) (x y : Str) :
    noChar c (x ++ y) = (noChar c x && noChar c y) := by
  simp [noChar, List.all_append]

theorem splitAux_noChar (sep : Char) (xs : Str) (h : noChar sep xs = true) :
    ∀ ys acc : Str, splitAux sep (xs ++ ys) acc = splitAux sep ys (xs.reverse ++ acc) := by
  induction xs with
  | nil => intro ys acc; simp
  | cons c cs ih =>
      intro ys acc
      rw [noChar_cons, Bool.and_eq_true] at h
      have hc : ¬(c = sep) := by simpa using h.1
      simp only [List.cons_append, splitAux, if_neg hc, List.append_eq]
      rw [ih h.2 ys (c :: acc)]
      simp

theorem jsSplit_noChar (sep : Char) (a : Str) (h : noChar sep a = true) :
    jsSplit sep a = [a] := by
  have := splitAux_noChar sep a h [] []
  simpa [jsSplit, splitAux] using this

theorem jsSplit_append_sep (sep : Char) (a rest : Str) (h : noChar sep a = true) :
    jsSplit sep (a ++ sep :: rest) = a :: jsSplit sep rest := by
  have := splitAux_noChar sep a h (sep :: rest) []
  simp only [jsSplit, this, splitAux, if_pos rfl]
  simp

theorem pkvStep_skip (obj : List (Str × Str)) (part : Str)
    (h : noChar '=' part = true) : pkvStep obj part = obj := by
  unfold pkvStep
  rw [jsSplit_noChar '=' part h]

theorem wfPair_parts (p : Str × Str) (h : wfPair p = true) :
    ¬p.1.isEmpty = true ∧ noChar '=' p.1 = true ∧ noChar '|' p.1 = true ∧
      noChar '=' p.2 = true ∧ noChar '|' p.2 = true := by
  simp only [wfPair, Bool.and_eq_true, Bool.not_eq_true'] at h
  refine ⟨by simp [h.1.1.1.1], h.1.1.1.2, h.1.1.2, h.1.2, h.2⟩

theorem pkvStep_pair (obj : List (Str × Str)) (p : Str × Str) (h : wfPair p = true) :
    pkvStep obj (p.1 ++ '=' :: p.2) = setKey obj (jsTrim p.1) (jsTrim p.2) := by
  obtain ⟨h1, h2, _, h4, _⟩ := wfPair_parts p h
  unfold pkvStep
  rw [jsSplit_append_sep '=' p.1 p.2 h2, jsSplit_noChar '=' p.2 h4]
  simp [h1]

theorem noChar_pipe_seg (p : Str × Str) (h : wfPair p = true) :
    noChar '|' (p.1 ++ '=' :: p.2) = true := by
  obtain ⟨_, _, h3, _, h5⟩ := wfPair_parts p h
  rw [noChar_append, noChar_cons, h3, h5]
  simp

theorem jsSplit_renderPairs (ps : List (Str × Str)) (h : wfPairs ps = true)
    (hne : ps ≠ []) :
    jsSplit '|' (renderPairs ps) = ps.map fun p => p.1 ++ '=' :: p.2 := by
  induction ps with
  | nil => exact absurd rfl hne
  | cons p t ih =>
      rw [wfPairs, List.all_cons, Bool.and_eq_true] at h
      cases t with
      | nil =>
          simp only [renderPairs, List.map]
          exact jsSplit_noChar '|' _ (noChar_pipe_seg p h.1)
      | cons q t2 =>
          have hseg := noChar_pipe_seg p h.1
          have hassoc : renderPairs (p :: q :: t2) =
              (p.1 ++ '=' :: p.2) ++ '|' :: renderPairs (q :: t2) := by
            simp [renderPairs]
          rw [hassoc, jsSplit_append_sep '|' _ _ hseg,
            ih h.2 (by simp)]
          rfl

theorem foldl_congr_mem {α β : Type} (f g : β → α → β) (l : List α) (init : β)
    (h : ∀ b : β, ∀ a ∈ l, f b a = g b a) : l.foldl f init = l.foldl g init := by
  induction l generalizing init with
  | nil => rfl
  | cons a t ih =>
      simp only [List.foldl_cons]
      rw [h init a (by simp)]
      exact ih _ fun b x hx => h b x (by simp [hx])

theorem parse_render_eq_fold (ps : List (Str × Str)) (h : wfPairs ps = true) :
    parseKeyVal (renderPairs ps) =
      ps.foldl (fun m p => setKey m (jsTrim p.1) (jsTrim p.2)) [] := by
  cases hps : ps with
  | nil => rfl
  | cons p t =>
      rw [← hps]
      unfold parseKeyVal
      rw [jsSplit_renderPairs ps h (by simp [hps]), List.foldl_map]
      refine foldl_congr_mem _ _ ps [] fun b a ha => ?_
      have hwf : wfPair a = true := by
        rw [wfPairs, List.all_eq_true] at h
        exact h a ha
      exact pkvStep_pair b a hwf

/-! Helper lemmas on `setKey`, `objGet` and the fold over pairs. -/

theorem objGet_setKey (m : List (Str × Str)) (k v x : Str) :
    objGet (setKey m k v) x = if x = k then some v else objGet m x := by
  induction m with
  | nil =>
      by_cases hx : x = k
      · simp [setKey, objGet, hx]
      · simp [setKey, objGet, hx, Ne.symm hx]
  | cons p t ih =>
      by_cases hpk : p.1 = k
      · by_cases hx : x = k
        · simp [setKey, objGet, hpk, hx]
        · simp [setKey, objGet, hpk, hx, Ne.symm hx]
      · by_cases hpx : p.1 = x
        · have hx : ¬(x = k) := fun hh => hpk (hpx.trans hh)
          simp [setKey, objGet, hpk, hpx, hx]
        · simp [setKey, objGet, hpk, hpx, ih]

theorem fst_mem_setKey (m : List (Str × Str)) (k v x : Str) :
    x ∈ (setKey m k v).map Prod.fst ↔ x ∈ m.map Prod.fst ∨ x = k := by
  induction m with
  | nil => simp [setKey]
  | cons p t ih =>
      by_cases hpk : p.1 = k
      · simp [setKey, hpk]
        tauto
      · simp [setKey, hpk, ih]
        tauto

theorem objGet_foldl_setKey (ps : List (Str × Str)) (x : Str) :
    ∀ m, objGet (ps.foldl (fun m p => setKey m (jsTrim p.1) (jsTrim p.2)) m) x =
      orO (lastVal ps x) (objGet m x) := by
  induction ps with
  | nil => intro m; simp [lastVal, orO]
  | cons p t ih =>
      intro m
      simp only [List.foldl_cons]
      rw [ih, objGet_setKey]
      show orO (lastVal t x) (if x = jsTrim p.1 then some (jsTrim p.2) else objGet m x) =
        orO (lastVal (p :: t) x) (objGet m x)
      rw [show lastVal (p :: t) x =
        orO (lastVal t x) (if x = jsTrim p.1 then some (jsTrim p.2) else none) from rfl]
      cases h : lastVal t x with
      | some v => simp [orO]
      | none =>
          by_cases hx : x = jsTrim p.1 <;> simp [hx, orO]

theorem fst_mem_foldl_setKey (ps : List (Str × Str)) (x : Str) :
    ∀ m, (x ∈ ((ps.foldl (fun m p => setKey m (jsTrim p.1) (jsTrim p.2)) m).map Prod.fst) ↔
      x ∈ m.map Prod.fst ∨ x ∈ ps.map fun p => jsTrim p.1) := by
  induction ps with
  | nil => intro m; simp
  | cons p t ih =>
      intro m
      simp only [List.foldl_cons]
      rw [ih, fst_mem_setKey]
      simp
      tauto

theorem orO_none_right {α : Type} (a : Option α) : orO a none = a := by
  cases a <;> rfl

theorem foldl_push_eq_map {α β : Type} (g : α → β) (l : List α) :
    ∀ acc : List β, l.foldl (fun acc x => acc ++ [g x]) acc = acc ++ l.map g := by
  induction l with
  | nil => intro acc; simp
  | cons x t ih =>
      intro acc
      simp only [List.foldl_cons, List.map_cons]
      rw [ih]
      simp

/-! Claim theorems. -/

/-- C2: `parseKeyVal` maps every `key1=val1|key2=val2|...` input (whitespace
around `=` and `|` is absorbed into the keys/values and trimmed away) to the
object assigning each trimmed key its trimmed value; a segment with no `=`
is skipped silently; empty or null input yields an empty object; the
function is a total function on strings; `"errors=3|files=12"` parses to
`{errors:"3", files:"12"}` and `"bad"` parses to `{}`. -/
theorem C2_parseKeyVal_contract :
    (∀ ps : List (Str × Str), wfPairs ps = true →
      parseKeyVal (renderPairs ps) =
        ps.foldl (fun m p => setKey m (jsTrim p.1) (jsTrim p.2)) [])
    ∧ (∀ (obj : List (Str × Str)) (part : Str), noChar '=' part = true →
        pkvStep obj part = obj)
    ∧ parseKeyValOpt none = []
    ∧ parseKeyVal [] = []
    ∧ parseKeyVal (ofString "errors=3|files=12") =
        [(ofString "errors", ofString "3"), (ofString "files", ofString "12")]
    ∧ parseKeyVal (ofString "bad") = [] :=
  ⟨parse_render_eq_fold, pkvStep_skip, rfl, rfl, by decide, by decide⟩

/-- Witness for C2 at a concrete well-formed input and a concrete `=`-less
segment. -/
theorem C2_parseKeyVal_contract_witness :
    parseKeyVal (renderPairs [(ofString "a", ofString "1")]) =
      [(ofString "a", ofString "1")]
    ∧ pkvStep [] (ofString "bad") = [] := by
  constructor
  · exact (C2_parseKeyVal_contract.1 [(ofString "a", ofString "1")] (by decide)).trans
      (by decide)
  · exact C2_parseKeyVal_contract.2.1 [] (ofString "bad") (by decide)

/-- C9: on every valid `key=value|key=value` string (rendered from
well-formed pairs, hence with no `=`-less segment at all), the parsed
object's key set is exactly the set of trimmed keys of the input pairs, and
looking up a key returns the trimmed value of its LAST occurrence. -/
theorem C9_parseKeyVal_keys_last_wins (ps : List (Str × Str))
    (h : wfPairs ps = true) (x : Str) :
    ((x ∈ (parseKeyVal (renderPairs ps)).map Prod.fst) ↔
      x ∈ ps.map fun p => jsTrim p.1)
    ∧ objGet (parseKeyVal (renderPairs ps)) x = lastVal ps x := by
  rw [parse_render_eq_fold ps h]
  constructor
  · rw [fst_mem_foldl_setKey ps x []]
    simp
  · rw [objGet_foldl_setKey ps x []]
    show orO (lastVal ps x) none = lastVal ps x
    exact orO_none_right _

/-- Witness for C9 on the duplicate-key input `"a=1|a=2"`: the key set is
exactly `{a}` and the lookup returns the last value `"2"`. -/
theorem C9_parseKeyVal_keys_last_wins_witness :
    objGet (parseKeyVal (renderPairs dupPairs)) (ofString "a") = some (ofString "2")
    ∧ (ofString "a") ∈ (parseKeyVal (renderPairs dupPairs)).map Prod.fst := by
  have h := C9_parseKeyVal_keys_last_wins dupPairs (by decide) (ofString "a")
  exact ⟨h.2.trans (by decide), h.1.mpr (by decide)⟩

/-- C10: a segment holding two or more `=` characters keeps only the text
between the first and the second `=` as the value; everything from the
second `=` onward is dropped silently.  `"a=b=c"` parses to `{a:"b"}`. -/
theorem C10_parseKeyVal_second_eq_dropped (a b c : Str)
    (ha : noChar '=' a = true) (hb : noChar '=' b = true)
    (hpa : noChar '|' a = true) (hpb : noChar '|' b = true)
    (hpc : noChar '|' c = true) (hne : a ≠ []) :
    parseKeyVal (a ++ '=' :: (b ++ '=' :: c)) = [(jsTrim a, jsTrim b)] := by
  have hwhole : noChar '|' (a ++ '=' :: (b ++ '=' :: c)) = true := by
    rw [noChar_append, noChar_cons, noChar_append, noChar_cons]
    simp [hpa, hpb, hpc]
  unfold parseKeyVal
  rw [jsSplit_noChar '|' _ hwhole]
  show pkvStep [] (a ++ '=' :: (b ++ '=' :: c)) = [(jsTrim a, jsTrim b)]
  unfold pkvStep
  rw [jsSplit_append_sep '=' a _ ha, jsSplit_append_sep '=' b c hb]
  simp [hne, setKey]

/-- Witness for C10 at the concrete input `"a=b=c"`. -/
theorem C10_parseKeyVal_second_eq_dropped_witness :
    parseKeyVal ['a', '=', 'b', '=', 'c'] = [(['a'], ['b'])] := by
  have h := C10_parseKeyVal_second_eq_dropped ['a'] ['b'] ['c']
    (by decide) (by decide) (by decide) (by decide) (by decide) (by decide)
  exact h.trans (by decide)

/-- C6: the aggregate pass rate is the number of runs concluding `"success"`
over the total number of runs, as a percentage rounded to one decimal place,
and it is `0` when the total is `0`; for
`[success, success, failure, success]` it is `75.0`. -/
theorem C6_passRate_spec :
    (∀ runs : List RawRun, passRate runs = specPassRate runs)
    ∧ passRate [] = 0
    ∧ passRate runsSSFS = 75 := by
  refine ⟨fun runs => ?_, by simp [passRate], ?_⟩
  · unfold passRate specPassRate countSuccess
    rcases Nat.eq_zero_or_pos runs.length with h | h
    · simp [h]
    · rw [if_pos h, if_neg (Nat.pos_iff_ne_zero.mp h)]
      rw [List.countP_eq_length_filter]
      have harg : (((runs.filter fun r =>
            decide (r.conclusion = some sSuccess)).length : ℚ) / (runs.length : ℚ) * 100) * 10 =
          100 * ((runs.filter fun r =>
            decide (r.conclusion = some sSuccess)).length : ℚ) / (runs.length : ℚ) * 10 := by
        ring
      rw [harg]
  · have h1 : countSuccess runsSSFS = 3 := by decide
    have h2 : runsSSFS.length = 4 := by decide
    unfold passRate
    rw [h1, h2]
    norm_num

/-- C7: the success streak of a run list is the number of consecutive runs
from the front whose conclusion is `"success"`, stopping at the first
non-success; for `[success, success, failure, success]` it is `2`. -/
theorem C7_computeStreak_spec :
    (∀ runs : List RawRun, computeStreak runs =
      (runs.takeWhile fun r => decide (r.conclusion = some sSuccess)).length)
    ∧ computeStreak runsSSFS = 2 := by
  refine ⟨fun runs => ?_, by decide⟩
  induction runs with
  | nil => rfl
  | cons r t ih =>
      by_cases h : r.conclusion = some sSuccess <;>
        simp [computeStreak, List.takeWhile_cons, h, ih]

/-- C4 (amended): the copilot/dynamic exclusion holds at the static-generator
path and at the static detail-page path, but NOT at the live-API ingestion
of `fetchRepoData`, which maps `normalizeRun` over every fetched run without
any exclusion (its output has the same length as its input). -/
theorem C4_ingest_filter_amended :
    (∀ (rs : List RawRun) (r : RawRun), r ∈ genFilterRuns rs ↔
      r ∈ rs ∧ hasSubstr sCopilot (lowerStr (r.name.getD [])) = false
        ∧ r.event ≠ some sDynamic)
    ∧ (∀ (rs : List RawRun) (r : RawRun), r ∈ detailFilterRuns rs ↔
      r ∈ rs ∧ hasSubstr sRelease (lowerStr (jsOrSDef r.name [])) = false
        ∧ hasSubstr sCopilot (lowerStr (jsOrSDef r.name [])) = false
        ∧ r.event ≠ some sDynamic)
    ∧ (∀ (now : Str) (rs : List RawRun), (appIngestRuns now rs).length = rs.length) := by
  refine ⟨fun rs r => ?_, fun rs r => ?_, fun now rs => ?_⟩
  · simp [genFilterRuns, List.mem_filter, genKeepRun, Bool.and_eq_true,
      Bool.not_eq_true', decide_eq_false_iff_not, and_assoc]
  · simp [detailFilterRuns, List.mem_filter, detailKeepRun, Bool.and_eq_true,
      Bool.not_eq_true', decide_eq_false_iff_not, and_assoc]
  · simp [appIngestRuns]

/-- C4 counterexample: a run whose name contains "copilot" (case-insensitive)
and whose event is the literal `"dynamic"` is nevertheless ingested by the
live-API path of `fetchRepoData`, so the exclusion rule is not applied at
every ingestion path. -/
theorem C4_ingest_filter_counterexample :
    (appIngestRuns sNow [copilotRaw]).length = 1
    ∧ ((appIngestRuns sNow [copilotRaw]).map fun r =>
        hasSubstr sCopilot (lowerStr (r.name.getD []))) = [true]
    ∧ hasSubstr sCopilot (lowerStr (copilotRaw.name.getD [])) = true
    ∧ copilotRaw.event = some sDynamic := by
  refine ⟨by decide, by decide, by decide, by decide⟩

/-- C5 (amended): on the detail page a job is classified into the security
bucket exactly when its name contains `"security"` (case-insensitive) — the
patterns "scan", "sast", "trivy", "vuln" play no role; lint matches `"lint"`
and test matches `"test"`; no job is classified as release.  For the
scenario jobs, "Run Lint" is found for lint, "Unit Test Suite" for test, and
no job is found for security ("Trivy Scan" matches nothing). -/
theorem C5_classification_amended :
    (∀ jobs : List Job, (findSecurityJob jobs).isSome ↔
      ∃ j ∈ jobs, reTestI (ofString "security") j.name = true)
    ∧ (∀ jobs : List Job, (findLintJob jobs).isSome ↔
      ∃ j ∈ jobs, reTestI (ofString "lint") j.name = true)
    ∧ (∀ jobs : List Job, (findTestJob jobs).isSome ↔
      ∃ j ∈ jobs, reTestI (ofString "test") j.name = true)
    ∧ findLintJob jobsScenario = some { name := ofString "Run Lint" }
    ∧ findTestJob jobsScenario = some { name := ofString "Unit Test Suite" }
    ∧ findSecurityJob jobsScenario = none := by
  refine ⟨fun jobs => ?_, fun jobs => ?_, fun jobs => ?_, by decide, by decide, by decide⟩
  · simp [findSecurityJob, List.find?_isSome]
  · simp [findLintJob, List.find?_isSome]
  · simp [findTestJob, List.find?_isSome]

/-- C5 counterexample: "Trivy Scan" satisfies the spec's security patterns
(it contains "trivy" and "scan") but the code's security lookup, which only
tests `/security/i`, classifies it into no bucket. -/
theorem C5_classification_counterexample :
    secSpecMatch (ofString "Trivy Scan") = true
    ∧ findSecurityJob [{ name := ofString "Trivy Scan" }] = none := by
  refine ⟨by decide, by decide⟩

/-- C3: when both the live API fetch and the static fetch fail for one
repository, `fetchRepoData` returns null and `refresh` stores the error
snapshot `{runs: [], conclusion: "unknown", error: true}` for it; the
assembly loop is pointwise (each repository's stored snapshot depends only
on its own outcome), so one repository's total failure cannot change any
other repository's result, and no step throws. -/
theorem C3_refresh_isolated_failure :
    (∀ now : Str, repoResult (fetchRepoData now (Except.error ()) (Except.error ())) =
      { runs := [], conclusion := sUnknown, totalCount := 0, isStatic := false, error := true })
    ∧ (∀ pairs : List (Str × Option RepoSnapshot),
        refreshAssemble pairs = pairs.map fun p => (p.1, repoResult p.2))
    ∧ (∀ (now : Str) (nameA nameB : Str) (snapB : RepoSnapshot),
        refreshAssemble
          [(nameA, fetchRepoData now (Except.error ()) (Except.error ())),
           (nameB, some snapB)] =
          [(nameA, errorSnapshot), (nameB, snapB)]) := by
  refine ⟨fun now => rfl, fun pairs => ?_, fun now nameA nameB snapB => rfl⟩
  exact (foldl_push_eq_map (fun p => (p.1, repoResult p.2)) pairs []).trans
    (List.nil_append _)

theorem rawRun_ext {a b : RawRun}
    (h1 : a.id = b.id) (h2 : a.name = b.name) (h3 : a.workflow_name = b.workflow_name)
    (h4 : a.status = b.status) (h5 : a.conclusion = b.conclusion)
    (h6 : a.html_url = b.html_url) (h7 : a.created_at = b.created_at)
    (h8 : a.updated_at = b.updated_at) (h9 : a.head_branch = b.head_branch)
    (h10 : a.head_sha = b.head_sha) (h11 : a.event = b.event)
    (h12 : a.run_number = b.run_number) (h13 : a.actor = b.actor)
    (h14 : a.triggering_actor = b.triggering_actor)
    (h15 : a.run_started_at = b.run_started_at) : a = b := by
  cases a
  cases b
  simp_all

/-- C1 (amended): `normalizeRun` defaults `name` to `"unknown"` (after the
`workflow_name` fallback), `status` to `"completed"`, `conclusion` to
`"unknown"` REGARDLESS of the status, `branch` to `"main"`, `event` to
`"push"`, `run_number` to `0`; `updated_at` and `run_started_at` fall back
to `created_at`; `actor` is taken from `actor`, falling back to
`triggering_actor`, falling back to null, and when present the WHOLE raw
actor object is retained (no projection to `{login, avatar_url}`). -/
theorem C1_normalizeRun_defaults_amended (now : Str) (r : RawRun) :
    (r.name = none → r.workflow_name = none →
      (normalizeRun now r).name = some (ofString "unknown"))
    ∧ (r.status = none → (normalizeRun now r).status = some sCompleted)
    ∧ (r.conclusion = none → (normalizeRun now r).conclusion = some sUnknown)
    ∧ (r.head_branch = none → (normalizeRun now r).head_branch = some sMain)
    ∧ (r.event = none → (normalizeRun now r).event = some sPush)
    ∧ (r.run_number = none → (normalizeRun now r).run_number = some 0)
    ∧ (∀ c : Str, r.updated_at = none → r.created_at = some c → c ≠ [] →
        (normalizeRun now r).updated_at = some c)
    ∧ (r.run_started_at = none → (normalizeRun now r).run_started_at = r.created_at)
    ∧ (∀ a : Actor, r.actor = some a → (normalizeRun now r).actor = some a)
    ∧ (r.actor = none → (normalizeRun now r).actor = r.triggering_actor) := by
  refine ⟨fun h1 h2 => ?_, fun h => ?_, fun h => ?_, fun h => ?_, fun h => ?_,
    fun h => ?_, fun c hu hc hcne => ?_, fun h => ?_, fun a ha => ?_, fun h => ?_⟩
  · simp [normalizeRun, h1, h2, jsOrS, jsOrSDef, strTruthy]
  · simp [normalizeRun, h, jsOrSDef]
  · simp [normalizeRun, h, jsOrSDef]
  · simp [normalizeRun, h, jsOrSDef]
  · simp [normalizeRun, h, jsOrSDef]
  · simp [normalizeRun, h, jsOrND]
  · simp [normalizeRun, hu, hc, jsOrS, jsOrSDef, strTruthy, hcne]
  · simp [normalizeRun, h, jsOrS, strTruthy]
  · simp [normalizeRun, ha, jsOrA]
  · simp [normalizeRun, h, jsOrA]

/-- Witness for C1 (amended) at concrete runs: the defaults fire on a run
with absent fields, the `updated_at` fallback fires on a run that only has
`created_at`, and the whole actor object (extra field included) survives. -/
theorem C1_normalizeRun_defaults_amended_witness :
    (normalizeRun sNow rawInProgress).name = some (ofString "unknown")
    ∧ (normalizeRun sNow rawInProgress).conclusion = some sUnknown
    ∧ (normalizeRun sNow runWithCreated).updated_at =
        some (ofString "2025-12-31T07:00:00Z")
    ∧ (normalizeRun sNow rawInProgress).actor =
        some { login := some (ofString "alice")
               avatar_url := some (ofString "https://example.com/a.png")
               extra := [(ofString "id", ofString "7")] } := by
  obtain ⟨g1, -, g3, -, -, -, -, -, g9, -⟩ :=
    C1_normalizeRun_defaults_amended sNow rawInProgress
  obtain ⟨-, -, -, -, -, -, k7, -, -, -⟩ :=
    C1_normalizeRun_defaults_amended sNow runWithCreated
  exact ⟨g1 rfl rfl, g3 rfl, k7 _ rfl rfl (by decide), g9 _ rfl⟩

/-- C1 counterexample: on a raw run with `status: "in_progress"` and no
conclusion the code still produces `conclusion: "unknown"` (not
`"in_progress"` as the claim's default policy states), and the actor is
retained whole — the `extra` field survives, so it is NOT retained only as
`{login, avatar_url}`. -/
theorem C1_normalizeRun_counterexample :
    rawInProgress.status = some sInProgress
    ∧ rawInProgress.conclusion = none
    ∧ (normalizeRun sNow rawInProgress).conclusion = some sUnknown
    ∧ (normalizeRun sNow rawInProgress).conclusion ≠ some sInProgress
    ∧ (normalizeRun sNow rawInProgress).actor ≠
        some { login := some (ofString "alice")
               avatar_url := some (ofString "https://example.com/a.png") } := by
  refine ⟨rfl, rfl, by decide, by decide, by decide⟩

/-- C8 (amended): `normalizeRun` is idempotent on every raw run that carries
a truthy `run_started_at` or a truthy `created_at` (the generated ISO
timestamp being nonempty); re-normalizing the output yields an identical
object even if the second call generates a different timestamp. -/
theorem C8_normalizeRun_idempotent_amended (now now2 : Str) (r : RawRun)
    (hnow : now ≠ [])
    (h : strTruthy r.run_started_at = true ∨ strTruthy r.created_at = true) :
    normalizeRun now2 (normalizeRun now r) = normalizeRun now r := by
  have hu : (ofString "unknown" : Str) ≠ [] := by decide
  have hcm : sCompleted ≠ [] := by decide
  have hun : sUnknown ≠ [] := by decide
  have hhs : sHash ≠ [] := by decide
  have hmn : sMain ≠ [] := by decide
  have hps : sPush ≠ [] := by decide
  apply rawRun_ext
  · rfl
  · exact congrArg some (jsOr_chain _ none _ (jsOrSDef_ne_nil _ _ hu))
  · rfl
  · exact congrArg some (jsOrSDef_some_of_ne _ _ (jsOrSDef_ne_nil _ _ hcm))
  · exact congrArg some (jsOrSDef_some_of_ne _ _ (jsOrSDef_ne_nil _ _ hun))
  · exact congrArg some (jsOrSDef_some_of_ne _ _ (jsOrSDef_ne_nil _ _ hhs))
  · exact congrArg some (jsOr_chain _ _ _ (jsOrSDef_ne_nil _ _ hnow))
  · exact congrArg some (jsOr_chain _ _ _ (jsOrSDef_ne_nil _ _ hnow))
  · exact congrArg some (jsOrSDef_some_of_ne _ _ (jsOrSDef_ne_nil _ _ hmn))
  · exact congrArg some (jsOrSDef_some_nil _)
  · exact congrArg some (jsOrSDef_some_of_ne _ _ (jsOrSDef_ne_nil _ _ hps))
  · exact congrArg some (jsOrND_some_zero _)
  · exact jsOrA_none_right _
  · rfl
  · refine jsOrS_of_truthy _ _ ?_
    show strTruthy (jsOrS r.run_started_at r.created_at) = true
    rw [strTruthy_jsOrS]
    rcases h with h | h <;> simp [h]

/-- Witness for C8 (amended) at a concrete run with a nonempty
`created_at`. -/
theorem C8_normalizeRun_idempotent_amended_witness :
    normalizeRun sNow (normalizeRun sNow runWithCreated) =
      normalizeRun sNow runWithCreated :=
  C8_normalizeRun_idempotent_amended sNow sNow runWithCreated (by decide)
    (Or.inr (by decide))

/-- C8 counterexample: on a raw run with no fields at all the first
normalization leaves `run_started_at` undefined while setting `created_at`,
so the second normalization fills `run_started_at` and the two outputs
differ — `normalizeRun` is not idempotent in general. -/
theorem C8_normalizeRun_counterexample :
    normalizeRun sNow (normalizeRun sNow ({} : RawRun)) ≠
      normalizeRun sNow ({} : RawRun)
    ∧ (normalizeRun sNow ({} : RawRun)).run_started_at = none
    ∧ (normalizeRun sNow (normalizeRun sNow ({} : RawRun))).run_started_at =
        some sNow := by
  refine ⟨by decide, rfl, by decide⟩

end CIDash
